import Mathlib

/-!
Verification of the core state engine, repository and task queue of the
ton-payment-network node, as a shallow embedding of the Go sources:

* `tonpayments/state.go`          — `updateOurStateWithAction`
* `tonpayments/db/task.go`        — `Channel.CalcBalance`, `VirtualChannelMeta.AddKnownResolve`,
                                    `DB.AcquireTask`, `DB.CreateTask`, `DB.RetryTask`
* `tonpayments/db/leveldb/db.go`  — `LevelDB.Transaction`

Monetary values (`big.Int` / `tlb.Coins` in Go) are embedded as `Int`.
Unix timestamps are `Int` (seconds) for the state engine and `Nat`
(nanoseconds) for the task queue, mirroring the units used by the Go code.
Byte strings are `List Nat`.  Cell hashes and ed25519 signatures are
embedded symbolically: a hash or signature is an injective constructor
applied to the hashed (signed) content, which models SHA-256 and ed25519
as collision-free and unforgeable.  The TON `cell.Dictionary` (32-bit key
→ serialized condition) is embedded as an association list sorted by key,
matching the canonical trie representation of TON dictionaries.
-/

namespace PaymentNet

/-- Byte strings (`[]byte` in Go). -/
abbrev Bytes := List Nat

/-- `payments.VirtualChannel` / the virtual-channel condition stored as a
dictionary value: {key (32-byte ed25519 pubkey), capacity, fee, prepay,
deadline (unix sec)}.  `Serialize` in Go is injective on these fields, so
content-hash equality of serialized conditions is equality of this record. -/
structure VirtualChannelCondition where
  key : Bytes
  capacity : Int
  fee : Int
  prepay : Int
  deadline : Int
deriving DecidableEq, Repr

/-- The conditionals dictionary: 32-bit key → condition, kept sorted by key
(the canonical TON dictionary is a trie, i.e. a canonical key-ordered map). -/
abbrev CondDict := List (Nat × VirtualChannelCondition)

/-- Dictionary lookup (`Dictionary.LoadValue` on an int key). -/
def dictGet : CondDict → Nat → Option VirtualChannelCondition
  | [], _ => none
  | (k0, v0) :: rest, k => if k = k0 then some v0 else dictGet rest k

/-- Dictionary insert/replace (`Dictionary.SetIntKey`), keeping the list sorted. -/
def dictSet : CondDict → Nat → VirtualChannelCondition → CondDict
  | [], k, v => [(k, v)]
  | (k0, v0) :: rest, k, v =>
    if k < k0 then (k, v) :: (k0, v0) :: rest
    else if k = k0 then (k, v) :: rest
    else (k0, v0) :: dictSet rest k v

/-- Dictionary delete (`Dictionary.DeleteIntKey`). -/
def dictDelete : CondDict → Nat → CondDict
  | [], _ => []
  | (k0, v0) :: rest, k => if k = k0 then rest else (k0, v0) :: dictDelete rest k

/-- `binary.LittleEndian.Uint32(key)`: the 32-bit little-endian prefix of a
virtual-channel key, used as the dictionary key. -/
def leKey32 (k : Bytes) : Nat :=
  (k.getD 0 0) % 256 + ((k.getD 1 0) % 256) * 256 +
    ((k.getD 2 0) % 256) * 65536 + ((k.getD 3 0) % 256) * 16777216

/-- The conditionals-hash field: either 32 zero bytes (empty dictionary) or the
cell hash of the serialized dictionary, embedded as an injective constructor. -/
inductive CondHash where
  | zeros32 : CondHash
  | dictHash (d : CondDict) : CondHash
deriving DecidableEq, Repr

/-- `payments.SemiChannelBody`: {seqno, cumulative sent, conditionals hash}. -/
structure SemiChannelBody where
  seqno : Nat
  sent : Int
  conditionalsHash : CondHash
deriving DecidableEq, Repr

/-- `payments.SemiChannel`: body plus channel id and optional counterparty mirror. -/
structure SemiChannel where
  channelID : Bytes
  data : SemiChannelBody
  counterpartyData : Option SemiChannelBody
deriving DecidableEq, Repr

/-- An ed25519 signature over a serialized semi-channel state: either the 64
zero bytes of a fresh side or a valid signature by private key `privKey` over
the serialized state, embedded as an injective constructor (`cell.Sign`). -/
inductive StateSignature where
  | zero64 : StateSignature
  | signed (privKey : Nat) (st : SemiChannel) : StateSignature
deriving DecidableEq, Repr

/-- `db.Side`: signed semi-channel + conditionals dictionary + pending withdraw. -/
structure Side where
  signature : StateSignature
  state : SemiChannel
  conditionals : CondDict
  pendingWithdraw : Int
deriving DecidableEq, Repr

/-- `db.OnchainState` (fields used by the balance computation). -/
structure OnchainState where
  committedSeqno : Nat
  deposited : Int
  withdrawn : Int
  sent : Int
deriving DecidableEq, Repr

/-- `db.Channel` (the fields the state engine and balance computation read).
Administrative fields (address, status, timestamps, db version, lock) are not
touched by the verified operations and are omitted. -/
structure Channel where
  our : Side
  their : Side
  ourOnchain : OnchainState
  theirOnchain : OnchainState
deriving DecidableEq, Repr

/-- `Channel.CalcBalance`: returns (balance, locked) of side `s1` (ours when
`isTheir = false`), folding over `s1`'s conditionals exactly as the Go loop:
balance −= capacity + fee − prepay, locked += capacity + fee − prepay. -/
def CalcBalance (ch : Channel) (isTheir : Bool) : Int × Int :=
  let s1 := if isTheir then ch.their else ch.our
  let s1chain := if isTheir then ch.theirOnchain else ch.ourOnchain
  let s2 := if isTheir then ch.our else ch.their
  let maxWithdraw := if s1chain.withdrawn < s1.pendingWithdraw then s1.pendingWithdraw
    else s1chain.withdrawn
  let balance0 := s2.state.data.sent + (s1chain.deposited - maxWithdraw) - s1.state.data.sent
  let locked0 := if 0 < s1.pendingWithdraw then s1.pendingWithdraw - s1chain.withdrawn else 0
  if s1.conditionals = [] then (balance0, locked0)
  else
    s1.conditionals.foldl
      (fun acc kv =>
        (acc.1 - kv.2.capacity - kv.2.fee + kv.2.prepay,
         acc.2 + kv.2.capacity + kv.2.fee - kv.2.prepay))
      (balance0, locked0)

/-- The per-condition locked amount `capacity + fee − prepay` of the spec. -/
def condLocked (c : VirtualChannelCondition) : Int := c.capacity + c.fee - c.prepay

/-- Modelled from the spec's words (§3 balance invariant), for comparison with
`CalcBalance`: `balance(S) = S'.sent + S.onchain.deposited −
max(S.onchain.withdrawn, S.pending_withdraw) − S.sent − Σ (capacity + fee − prepay)`. -/
def balanceSpec (ch : Channel) (isTheir : Bool) : Int :=
  let s1 := if isTheir then ch.their else ch.our
  let s1chain := if isTheir then ch.theirOnchain else ch.ourOnchain
  let s2 := if isTheir then ch.our else ch.their
  s2.state.data.sent + s1chain.deposited - max s1chain.withdrawn s1.pendingWithdraw -
    s1.state.data.sent - (s1.conditionals.map (fun kv => condLocked kv.2)).sum

/-- Modelled from the spec's words (§3 balance invariant), for comparison with
`CalcBalance`: `locked(S) = max(0, S.pending_withdraw − S.onchain.withdrawn) +
Σ (capacity + fee − prepay)`. -/
def lockedSpec (ch : Channel) (isTheir : Bool) : Int :=
  let s1 := if isTheir then ch.their else ch.our
  let s1chain := if isTheir then ch.theirOnchain else ch.ourOnchain
  max 0 (s1.pendingWithdraw - s1chain.withdrawn) +
    (s1.conditionals.map (fun kv => condLocked kv.2)).sum

/-- The locked amount `CalcBalance` actually computes: the base term is
`pending_withdraw − withdrawn` when `pending_withdraw > 0` (which may be
negative) and `0` otherwise — not the spec's `max(0, …)`. -/
def lockedCode (ch : Channel) (isTheir : Bool) : Int :=
  let s1 := if isTheir then ch.their else ch.our
  let s1chain := if isTheir then ch.theirOnchain else ch.ourOnchain
  (if 0 < s1.pendingWithdraw then s1.pendingWithdraw - s1chain.withdrawn else 0) +
    (s1.conditionals.map (fun kv => condLocked kv.2)).sum

/-- The balance/locked fold accumulates exactly the sum of `condLocked`. -/
theorem calcBalance_fold (l : CondDict) (b0 l0 : Int) :
    l.foldl
      (fun acc kv =>
        (acc.1 - kv.2.capacity - kv.2.fee + kv.2.prepay,
         acc.2 + kv.2.capacity + kv.2.fee - kv.2.prepay))
      (b0, l0) =
    (b0 - (l.map (fun kv => condLocked kv.2)).sum,
     l0 + (l.map (fun kv => condLocked kv.2)).sum) := by
  induction l generalizing b0 l0 with
  | nil => simp
  | cons hd tl ih =>
    simp only [List.foldl_cons, List.map_cons, List.sum_cons, ih, condLocked,
      Prod.mk.injEq]
    constructor <;> ring

/-- The Go max-withdraw pattern is `max`. -/
theorem ite_lt_max (w p : Int) : (if w < p then p else w) = max w p := by
  rw [max_def]; split <;> split <;> omega

/-- `CalcBalance` computes the spec's balance and the code's locked amount. -/
theorem CalcBalance_eq (ch : Channel) (isTheir : Bool) :
    CalcBalance ch isTheir = (balanceSpec ch isTheir, lockedCode ch isTheir) := by
  unfold CalcBalance balanceSpec lockedCode
  cases isTheir <;>
    · simp only [Bool.false_eq_true, if_false, if_true]
      split
      · rename_i hemp
        simp only [hemp, List.map_nil, List.sum_nil, ite_lt_max, Prod.mk.injEq]
        constructor <;> ring_nf
      · rw [calcBalance_fold]
        simp only [ite_lt_max, Prod.mk.injEq]
        constructor <;> ring_nf

/-! ### Concrete channels used in counterexamples and witnesses -/

/-- A semi-channel body with zero values. -/
def zeroBody : SemiChannelBody := { seqno := 0, sent := 0, conditionalsHash := .zeros32 }

/-- A fresh side (`db.NewSide` with empty id and zero seqnos). -/
def zeroSide : Side :=
  { signature := .zero64
    state := { channelID := [], data := zeroBody, counterpartyData := some zeroBody }
    conditionals := []
    pendingWithdraw := 0 }

/-- Zero on-chain state. -/
def zeroOnchain : OnchainState :=
  { committedSeqno := 0, deposited := 0, withdrawn := 0, sent := 0 }

/-- A channel whose side has `pending_withdraw = 1` but `withdrawn = 2` on
chain: the code's locked amount goes negative where the spec's is zero. -/
def c2Channel : Channel :=
  { our := { zeroSide with pendingWithdraw := 1 }
    their := zeroSide
    ourOnchain := { zeroOnchain with withdrawn := 2 }
    theirOnchain := zeroOnchain }

/-- C2 counterexample: on `c2Channel` the code returns `locked = −1` for our
side while the spec's formula `max(0, pending_withdraw − withdrawn) + Σ`
gives `0`; so `CalcBalance` does not return the spec's pair. -/
theorem c2_locked_counterexample :
    (CalcBalance c2Channel false).2 = -1 ∧ lockedSpec c2Channel false = 0 ∧
      CalcBalance c2Channel false ≠ (balanceSpec c2Channel false, lockedSpec c2Channel false) := by
  refine ⟨by decide, by decide, by decide⟩

/-- C2 (amended): for every channel and side, `CalcBalance` returns exactly
the spec's balance `S'.sent + S.onchain.deposited − max(S.onchain.withdrawn,
S.pending_withdraw) − S.sent − Σ(capacity + fee − prepay)`, and the locked
amount `(S.pending_withdraw − S.onchain.withdrawn` if `S.pending_withdraw > 0`
else `0) + Σ(capacity + fee − prepay)` — the base term is not clamped at zero
as the spec's `max(0, …)` claims. -/
theorem c2_calcBalance_spec (ch : Channel) (isTheir : Bool) :
    CalcBalance ch isTheir = (balanceSpec ch isTheir, lockedCode ch isTheir) :=
  CalcBalance_eq ch isTheir

/-! ### The channel state engine (`updateOurStateWithAction`, state.go) -/

/-- `payments.VirtualChannelState`: an off-chain resolve {amount, signature by
the virtual-channel key}.  `sigKey = some k` embeds a valid signature over this
state by key `k`; `none` embeds an invalid signature. -/
structure VirtualChannelState where
  amount : Int
  sigKey : Option Bytes
deriving DecidableEq, Repr

/-- `VirtualChannelState.Verify(key)`: the signature verifies against `key`. -/
def VirtualChannelState.verify (st : VirtualChannelState) (key : Bytes) : Bool :=
  st.sigKey = some key

/-- `transport.Action`: the tagged action sum type. `OpenVirtual` carries the
condition delivered through `details` in Go; `CommitVirtual` carries the new
prepay amount (`big.Int.SetBytes`, hence non-negative). -/
inductive Action where
  | incrementStates : Action
  | openVirtual (vch : VirtualChannelCondition) : Action
  | commitVirtual (key : Bytes) (prepayAmount : Nat) : Action
  | removeVirtual (key : Bytes) : Action
  | confirmClose (key : Bytes) (vstate : VirtualChannelState) : Action
deriving DecidableEq, Repr

/-- Modelled from the spec: `payments.FindVirtualChannelWithProof` (package
`pkg/payments` is not among the provided sources) looks a condition up under
the 32-bit little-endian prefix of the virtual-channel key and reports the
dictionary index it was found at; an absent key is `ErrNotFound`. -/
def findVirtualChannel (d : CondDict) (key : Bytes) :
    Option (Nat × VirtualChannelCondition) :=
  (dictGet d (leKey32 key)).map (fun c => (leKey32 key, c))

/-- Replace our conditionals dictionary. -/
def setOurConditionals (channel : Channel) (d : CondDict) : Channel :=
  { channel with our := { channel.our with conditionals := d } }

/-- Add `v` to our off-chain cumulative `sent`. -/
def addOurSent (channel : Channel) (v : Int) : Channel :=
  { channel with our :=
    { channel.our with state :=
      { channel.our.state with data :=
        { channel.our.state.data with sent := channel.our.state.data.sent + v } } } }

/-- The action-specific part of `updateOurStateWithAction` (the `switch` over
action types, state.go lines 31–214): validates the action against the current
snapshot, mutates the conditionals dictionary and `sent`, and reports whether
the application was idempotent.  Proof-skeleton bookkeeping and logging
callbacks carry no state and are not embedded. -/
def applyActionOur (now : Int) (channel : Channel) (action : Action) :
    Except String (Bool × Channel) :=
  match action with
  | .incrementStates => .ok (false, channel)
  | .openVirtual vch =>
    if vch.capacity ≤ 0 then .error "invalid capacity"
    else if vch.fee < 0 then .error "invalid fee"
    else if vch.prepay < 0 then .error "invalid prepay"
    else if vch.deadline < now then .error "deadline expired"
    else
      match dictGet channel.our.conditionals (leKey32 vch.key) with
      | some existing =>
        if existing = vch then .ok (true, channel)
        else .error "virtual channel with the same key prefix and different content is already exists"
      | none =>
        let ch2 := setOurConditionals channel
          (dictSet channel.our.conditionals (leKey32 vch.key) vch)
        if (CalcBalance ch2 false).1 < 0 then
          .error "not enough available balance with target"
        else .ok (false, ch2)
  | .commitVirtual key prepayAmount =>
    match findVirtualChannel channel.our.conditionals key with
    | none => .error "virtual channel is not found"
    | some (_, vch) =>
      let prepay : Int := prepayAmount
      let toSend := prepay - vch.prepay
      if toSend < 0 then .error "prepay amount is less than before"
      else if toSend = 0 then .ok (true, channel)
      else
        let ch2 := setOurConditionals channel
          (dictSet channel.our.conditionals (leKey32 vch.key) { vch with prepay := prepay })
        .ok (false, addOurSent ch2 toSend)
  | .removeVirtual key =>
    match findVirtualChannel channel.our.conditionals key with
    | none => .ok (true, channel)
    | some (idx, _) =>
      .ok (false, setOurConditionals channel (dictDelete channel.our.conditionals idx))
  | .confirmClose key vstate =>
    if vstate.verify key then
      match findVirtualChannel channel.our.conditionals key with
      | none => .ok (true, channel)
      | some (idx, vch) =>
        if vch.deadline < now then .error "virtual channel has expired"
        else
          let ch2 := setOurConditionals channel (dictDelete channel.our.conditionals idx)
          let toSend := vstate.amount - vch.prepay + vch.fee
          .ok (false, if 0 < toSend then addOurSent ch2 toSend else ch2)
    else .error "incorrect channel state signature"

/-- The non-idempotent epilogue (state.go lines 221–233): bump our seqno,
recompute the conditionals hash (32 zero bytes when the dictionary is empty)
and re-sign the semi-channel with the node's private key. -/
def finalizeOurState (nodeKey : Nat) (channel : Channel) : Channel :=
  let data2 :=
    { channel.our.state.data with
      seqno := channel.our.state.data.seqno + 1
      conditionalsHash :=
        if channel.our.conditionals = [] then CondHash.zeros32
        else CondHash.dictHash channel.our.conditionals }
  let state2 := { channel.our.state with data := data2 }
  { channel with our :=
    { channel.our with state := state2, signature := .signed nodeKey state2 } }

/-- `Service.updateOurStateWithAction`: apply an action to our side and, when
it was not idempotent, finalize (bump seqno, re-hash, re-sign). -/
def updateOurStateWithAction (nodeKey : Nat) (now : Int) (channel : Channel)
    (action : Action) : Except String (Bool × Channel) :=
  match applyActionOur now channel action with
  | .error e => .error e
  | .ok (true, ch2) => .ok (true, ch2)
  | .ok (false, ch2) => .ok (false, finalizeOurState nodeKey ch2)

/-- The increase of our cumulative `sent` an action causes, in terms of the
pre-state: `max(0, resolve.amount − prepay + fee)` for `ConfirmClose`,
`new_prepay − old_prepay` for `CommitVirtual`, `0` otherwise. -/
def deltaSent (channel : Channel) (action : Action) : Int :=
  match action with
  | .confirmClose key vstate =>
    match findVirtualChannel channel.our.conditionals key with
    | some (_, vch) => max 0 (vstate.amount - vch.prepay + vch.fee)
    | none => 0
  | .commitVirtual key prepayAmount =>
    match findVirtualChannel channel.our.conditionals key with
    | some (_, vch) => (prepayAmount : Int) - vch.prepay
    | none => 0
  | _ => 0

/-- Error observer for update results. -/
def isErr {α : Type} : Except String α → Bool
  | .error _ => true
  | .ok _ => false

theorem isErr_error {α : Type} (e : String) : isErr (α := α) (.error e) = true := rfl

theorem isErr_ok {α : Type} (a : α) : isErr (.ok a) = false := rfl

/-- A non-idempotent success factors through the epilogue. -/
theorem update_ok_false_inv (k : Nat) (now : Int) (ch ch2 : Channel) (a : Action)
    (h : updateOurStateWithAction k now ch a = .ok (false, ch2)) :
    ∃ chm, applyActionOur now ch a = .ok (false, chm) ∧ ch2 = finalizeOurState k chm := by
  unfold updateOurStateWithAction at h
  cases hap : applyActionOur now ch a with
  | error e => rw [hap] at h; exact absurd h (by simp)
  | ok p =>
    rw [hap] at h
    obtain ⟨b, chm⟩ := p
    cases b with
    | true => exact absurd h (by simp)
    | false => exact ⟨chm, rfl, by simpa using h.symm⟩

/-- The action branches preserve our seqno and change our `sent` by `deltaSent`. -/
theorem applyActionOur_false_inv (now : Int) (ch chm : Channel) (a : Action)
    (h : applyActionOur now ch a = .ok (false, chm)) :
    chm.our.state.data.sent = ch.our.state.data.sent + deltaSent ch a ∧
      chm.our.state.data.seqno = ch.our.state.data.seqno := by
  cases a with
  | incrementStates =>
    simp only [applyActionOur, Except.ok.injEq, Prod.mk.injEq, true_and] at h
    subst h
    simp [deltaSent]
  | openVirtual vch =>
    simp only [applyActionOur] at h
    split at h
    · exact absurd h (by simp)
    split at h
    · exact absurd h (by simp)
    split at h
    · exact absurd h (by simp)
    split at h
    · exact absurd h (by simp)
    split at h
    · split at h
      · exact absurd h (by simp)
      · exact absurd h (by simp)
    · split at h
      · exact absurd h (by simp)
      · simp only [Except.ok.injEq, Prod.mk.injEq, true_and] at h
        subst h
        simp [deltaSent, setOurConditionals]
  | commitVirtual key p =>
    simp only [applyActionOur] at h
    cases hf : findVirtualChannel ch.our.conditionals key with
    | none => rw [hf] at h; exact absurd h (by simp)
    | some iv =>
      obtain ⟨idx, vch⟩ := iv
      rw [hf] at h
      simp only at h
      split at h
      · exact absurd h (by simp)
      split at h
      · exact absurd h (by simp)
      · simp only [Except.ok.injEq, Prod.mk.injEq, true_and] at h
        subst h
        simp [deltaSent, hf, addOurSent, setOurConditionals]
  | removeVirtual key =>
    simp only [applyActionOur] at h
    cases hf : findVirtualChannel ch.our.conditionals key with
    | none => rw [hf] at h; exact absurd h (by simp)
    | some iv =>
      obtain ⟨idx, vch⟩ := iv
      rw [hf] at h
      simp only [Except.ok.injEq, Prod.mk.injEq, true_and] at h
      subst h
      simp [deltaSent, setOurConditionals]
  | confirmClose key st =>
    simp only [applyActionOur] at h
    split at h
    · cases hf : findVirtualChannel ch.our.conditionals key with
      | none => rw [hf] at h; exact absurd h (by simp)
      | some iv =>
        obtain ⟨idx, vch⟩ := iv
        rw [hf] at h
        simp only at h
        split at h
        · exact absurd h (by simp)
        · simp only [Except.ok.injEq, Prod.mk.injEq, true_and] at h
          subst h
          simp only [deltaSent, hf]
          split
          · rename_i hpos
            simp [addOurSent, setOurConditionals]
            omega
          · rename_i hneg
            simp [setOurConditionals]
            omega
    · exact absurd h (by simp)

theorem finalize_conditionals (k : Nat) (c : Channel) :
    (finalizeOurState k c).our.conditionals = c.our.conditionals := rfl

theorem finalize_sent (k : Nat) (c : Channel) :
    (finalizeOurState k c).our.state.data.sent = c.our.state.data.sent := rfl

theorem finalize_seqno (k : Nat) (c : Channel) :
    (finalizeOurState k c).our.state.data.seqno = c.our.state.data.seqno + 1 := rfl

theorem finalize_hash (k : Nat) (c : Channel) :
    (finalizeOurState k c).our.state.data.conditionalsHash =
      (if (finalizeOurState k c).our.conditionals = [] then CondHash.zeros32
       else CondHash.dictHash ((finalizeOurState k c).our.conditionals)) := rfl

theorem finalize_signature (k : Nat) (c : Channel) :
    (finalizeOurState k c).our.signature = .signed k (finalizeOurState k c).our.state := rfl

/-- C1: every successful non-idempotent `updateOurStateWithAction` increments
our seqno by exactly 1, sets our conditionals hash to the hash of the
conditionals dictionary (32 zero bytes when it is empty), re-signs the
semi-channel with the node's key, and increases our `sent` by
`max(0, resolve.amount − prepay + fee)` for `ConfirmClose`,
by `new_prepay − old_prepay` for `CommitVirtual` and by `0` otherwise. -/
theorem c1_nonIdempotent_update (k : Nat) (now : Int) (ch ch2 : Channel) (a : Action)
    (h : updateOurStateWithAction k now ch a = .ok (false, ch2)) :
    ch2.our.state.data.seqno = ch.our.state.data.seqno + 1 ∧
    ch2.our.state.data.conditionalsHash =
      (if ch2.our.conditionals = [] then CondHash.zeros32
       else CondHash.dictHash ch2.our.conditionals) ∧
    ch2.our.signature = .signed k ch2.our.state ∧
    ch2.our.state.data.sent = ch.our.state.data.sent + deltaSent ch a := by
  obtain ⟨chm, hap, rfl⟩ := update_ok_false_inv k now ch ch2 a h
  obtain ⟨hsent, hseq⟩ := applyActionOur_false_inv now ch chm a hap
  refine ⟨?_, finalize_hash k chm, finalize_signature k chm, ?_⟩
  · rw [finalize_seqno, hseq]
  · rw [finalize_sent, hsent]

/-- A plain channel used in witnesses: fresh sides, 100 deposited on our side. -/
def wChannel : Channel :=
  { our := zeroSide
    their := zeroSide
    ourOnchain := { zeroOnchain with deposited := 100 }
    theirOnchain := zeroOnchain }

/-- C1 witness: a concrete non-idempotent `IncrementStates` application. -/
theorem c1_witness :
    updateOurStateWithAction 7 0 wChannel .incrementStates =
      .ok (false, finalizeOurState 7 wChannel) ∧
    ((finalizeOurState 7 wChannel).our.state.data.seqno =
        wChannel.our.state.data.seqno + 1 ∧
      (finalizeOurState 7 wChannel).our.state.data.conditionalsHash =
        (if (finalizeOurState 7 wChannel).our.conditionals = [] then CondHash.zeros32
         else CondHash.dictHash (finalizeOurState 7 wChannel).our.conditionals) ∧
      (finalizeOurState 7 wChannel).our.signature =
        .signed 7 (finalizeOurState 7 wChannel).our.state ∧
      (finalizeOurState 7 wChannel).our.state.data.sent =
        wChannel.our.state.data.sent + deltaSent wChannel .incrementStates) :=
  ⟨rfl, c1_nonIdempotent_update 7 0 wChannel (finalizeOurState 7 wChannel)
    .incrementStates rfl⟩

/-- C3: idempotent actions — an `OpenVirtual` whose identical condition is
already stored, a `CommitVirtual` whose new prepay equals the stored prepay,
and a `RemoveVirtual`/`ConfirmClose` of an absent key — succeed with the
post-state literally equal to the pre-state: seqno not incremented, signature
untouched.  Since the post-state equals the pre-state, applying the same
action a second time is the very same application and returns the identical
(bit-exact) state again with no double increment. -/
theorem c3_idempotent_reapply (k : Nat) (now : Int) (ch : Channel) :
    (∀ vch : VirtualChannelCondition, 0 < vch.capacity → 0 ≤ vch.fee → 0 ≤ vch.prepay →
      now ≤ vch.deadline →
      dictGet ch.our.conditionals (leKey32 vch.key) = some vch →
      updateOurStateWithAction k now ch (.openVirtual vch) = .ok (true, ch)) ∧
    (∀ key (p : Nat) idx vch, findVirtualChannel ch.our.conditionals key = some (idx, vch) →
      (p : Int) = vch.prepay →
      updateOurStateWithAction k now ch (.commitVirtual key p) = .ok (true, ch)) ∧
    (∀ key, findVirtualChannel ch.our.conditionals key = none →
      updateOurStateWithAction k now ch (.removeVirtual key) = .ok (true, ch)) ∧
    (∀ key st, st.verify key = true →
      findVirtualChannel ch.our.conditionals key = none →
      updateOurStateWithAction k now ch (.confirmClose key st) = .ok (true, ch)) := by
  refine ⟨?_, ?_, ?_, ?_⟩
  · intro vch hcap hfee hpre hdl hget
    simp only [updateOurStateWithAction, applyActionOur, hget]
    rw [if_neg (by omega), if_neg (by omega), if_neg (by omega), if_neg (by omega)]
    simp
  · intro key p idx vch hfind hp
    simp only [updateOurStateWithAction, applyActionOur, hfind]
    rw [if_neg (by omega), if_pos (by omega)]
  · intro key hfind
    simp only [updateOurStateWithAction, applyActionOur, hfind]
  · intro key st hv hfind
    simp only [updateOurStateWithAction, applyActionOur, hfind, hv, if_true]

/-- A condition stored in witness channels: key `[1]`, capacity 5, fee 1. -/
def wCond : VirtualChannelCondition :=
  { key := [1], capacity := 5, fee := 1, prepay := 0, deadline := 100 }

/-- `wChannel` with `wCond` stored in our conditionals under index 1. -/
def wCondChannel : Channel :=
  { wChannel with our := { zeroSide with conditionals := [(leKey32 [1], wCond)] } }

/-- C3 witness: all four idempotent cases on a concrete channel. -/
theorem c3_witness :
    updateOurStateWithAction 7 0 wCondChannel (.openVirtual wCond) = .ok (true, wCondChannel) ∧
    updateOurStateWithAction 7 0 wCondChannel (.commitVirtual [1] 0) = .ok (true, wCondChannel) ∧
    updateOurStateWithAction 7 0 wCondChannel (.removeVirtual [9]) = .ok (true, wCondChannel) ∧
    updateOurStateWithAction 7 0 wCondChannel
      (.confirmClose [9] { amount := 3, sigKey := some [9] }) = .ok (true, wCondChannel) :=
  ⟨(c3_idempotent_reapply 7 0 wCondChannel).1 wCond (by decide) (by decide) (by decide)
      (by decide) (by decide),
   (c3_idempotent_reapply 7 0 wCondChannel).2.1 [1] 0 (leKey32 [1]) wCond (by decide) (by decide),
   (c3_idempotent_reapply 7 0 wCondChannel).2.2.1 [9] (by decide),
   (c3_idempotent_reapply 7 0 wCondChannel).2.2.2 [9] { amount := 3, sigKey := some [9] }
      (by decide) (by decide)⟩

/-- The condition of the C4 counterexample: its deadline equals `now = 0`. -/
def c4Cond : VirtualChannelCondition :=
  { key := [1], capacity := 1, fee := 0, prepay := 0, deadline := 0 }

/-- C4 counterexample: the claim demands rejection whenever the deadline is
not *strictly* greater than now, but with `deadline = now = 0` the code
accepts the `OpenVirtual` action (it rejects only `deadline < now`). -/
theorem c4_counterexample :
    isErr (updateOurStateWithAction 7 0 wChannel (.openVirtual c4Cond)) = false ∧
      ¬ (0 : Int) < c4Cond.deadline := by
  refine ⟨by decide, by decide⟩

/-- C4 (amended): `updateOurStateWithAction` rejects an `OpenVirtual` action
exactly when capacity ≤ 0, fee < 0, prepay < 0, the deadline is strictly less
than now (`deadline = now` is accepted), a condition with the same 32-bit key
prefix but different content already exists, or the condition is not yet
present and the post-insert balance of our side is negative (the idempotent
re-apply of an already-present identical condition bypasses the balance
check). -/
theorem c4_openVirtual_error_iff (k : Nat) (now : Int) (ch : Channel)
    (vch : VirtualChannelCondition) :
    isErr (updateOurStateWithAction k now ch (.openVirtual vch)) = true ↔
      (vch.capacity ≤ 0 ∨ vch.fee < 0 ∨ vch.prepay < 0 ∨ vch.deadline < now ∨
       (∃ c, dictGet ch.our.conditionals (leKey32 vch.key) = some c ∧ c ≠ vch) ∨
       (dictGet ch.our.conditionals (leKey32 vch.key) = none ∧
        (CalcBalance (setOurConditionals ch
          (dictSet ch.our.conditionals (leKey32 vch.key) vch)) false).1 < 0)) := by
  by_cases h1 : vch.capacity ≤ 0
  · simp only [updateOurStateWithAction, applyActionOur, if_pos h1, isErr]
    tauto
  by_cases h2 : vch.fee < 0
  · simp only [updateOurStateWithAction, applyActionOur, if_neg h1, if_pos h2, isErr]
    tauto
  by_cases h3 : vch.prepay < 0
  · simp only [updateOurStateWithAction, applyActionOur, if_neg h1, if_neg h2, if_pos h3, isErr]
    tauto
  by_cases h4 : vch.deadline < now
  · simp only [updateOurStateWithAction, applyActionOur, if_neg h1, if_neg h2, if_neg h3,
      if_pos h4, isErr]
    tauto
  cases hget : dictGet ch.our.conditionals (leKey32 vch.key) with
  | some c =>
    by_cases hc : c = vch
    · subst hc
      have hupd : updateOurStateWithAction k now ch (.openVirtual c) = .ok (true, ch) := by
        simp only [updateOurStateWithAction, applyActionOur, hget]
        rw [if_neg h1, if_neg h2, if_neg h3, if_neg h4]
        simp
      rw [hupd, isErr_ok]
      simp only [Bool.false_eq_true, false_iff]
      push_neg
      refine ⟨by omega, by omega, by omega, by omega, ?_, by simp [hget]⟩
      intro x hx
      exact (Option.some.inj hx).symm
    · have hupd : isErr (updateOurStateWithAction k now ch (.openVirtual vch)) = true := by
        simp only [updateOurStateWithAction, applyActionOur, hget]
        rw [if_neg h1, if_neg h2, if_neg h3, if_neg h4, if_neg hc]
        rfl
      rw [hupd]
      simp only [true_iff]
      exact Or.inr (Or.inr (Or.inr (Or.inr (Or.inl ⟨c, rfl, hc⟩))))
  | none =>
    by_cases hb : (CalcBalance (setOurConditionals ch
        (dictSet ch.our.conditionals (leKey32 vch.key) vch)) false).1 < 0
    · have hupd : isErr (updateOurStateWithAction k now ch (.openVirtual vch)) = true := by
        simp only [updateOurStateWithAction, applyActionOur, hget]
        rw [if_neg h1, if_neg h2, if_neg h3, if_neg h4, if_pos hb]
        rfl
      rw [hupd]
      simp only [true_iff]
      tauto
    · have hupd : updateOurStateWithAction k now ch (.openVirtual vch) =
          .ok (false, finalizeOurState k (setOurConditionals ch
            (dictSet ch.our.conditionals (leKey32 vch.key) vch))) := by
        simp only [updateOurStateWithAction, applyActionOur, hget]
        rw [if_neg h1, if_neg h2, if_neg h3, if_neg h4, if_neg hb]
      rw [hupd, isErr_ok]
      simp only [Bool.false_eq_true, false_iff]
      push_neg
      refine ⟨by omega, by omega, by omega, by omega, by simp [hget], fun _ => by omega⟩

/-- C6: `ConfirmClose` fails when the resolve's signature does not verify
against the condition's key, fails (without deleting or crediting — an error
produces no post-state at all) when the stored condition's deadline has
passed, and any non-idempotent success implies `now ≤ deadline`. -/
theorem c6_confirmClose_deadline (k : Nat) (now : Int) (ch : Channel) :
    (∀ key st, st.verify key = false →
      isErr (updateOurStateWithAction k now ch (.confirmClose key st)) = true) ∧
    (∀ key st idx vch, st.verify key = true →
      findVirtualChannel ch.our.conditionals key = some (idx, vch) →
      vch.deadline < now →
      isErr (updateOurStateWithAction k now ch (.confirmClose key st)) = true) ∧
    (∀ key st ch2 idx vch,
      updateOurStateWithAction k now ch (.confirmClose key st) = .ok (false, ch2) →
      findVirtualChannel ch.our.conditionals key = some (idx, vch) →
      now ≤ vch.deadline) := by
  refine ⟨?_, ?_, ?_⟩
  · intro key st hv
    simp only [updateOurStateWithAction, applyActionOur, hv, Bool.false_eq_true, if_false,
      isErr]
  · intro key st idx vch hv hfind hdl
    simp only [updateOurStateWithAction, applyActionOur, hv, if_true, hfind, if_pos hdl, isErr]
  · intro key st ch2 idx vch h hfind
    simp only [updateOurStateWithAction, applyActionOur, hfind] at h
    split at h
    · exact absurd h (by simp)
    · exact absurd h (by simp)
    · rename_i ch3 heq
      split at heq
      · split at heq
        · exact absurd heq (by simp)
        · omega
      · exact absurd heq (by simp)

/-- The resolve used in the C6 witness: amount 3, validly signed by key `[1]`. -/
def c6St : VirtualChannelState := { amount := 3, sigKey := some [1] }

/-- C6 witness: a bad signature errors; an expired condition errors; a
concrete successful close happens with `now = 0 ≤ deadline = 100`. -/
theorem c6_witness :
    isErr (updateOurStateWithAction 7 0 wCondChannel
      (.confirmClose [1] { amount := 3, sigKey := none })) = true ∧
    isErr (updateOurStateWithAction 7 200 wCondChannel (.confirmClose [1] c6St)) = true ∧
    (0 : Int) ≤ wCond.deadline :=
  ⟨(c6_confirmClose_deadline 7 0 wCondChannel).1 [1] { amount := 3, sigKey := none }
      (by decide),
   (c6_confirmClose_deadline 7 200 wCondChannel).2.1 [1] c6St (leKey32 [1]) wCond
      (by decide) (by decide) (by decide),
   (c6_confirmClose_deadline 7 0 wCondChannel).2.2 [1] c6St
      (finalizeOurState 7 (addOurSent (setOurConditionals wCondChannel
        (dictDelete wCondChannel.our.conditionals (leKey32 [1]))) 4))
      (leKey32 [1]) wCond (by rfl) (by decide)⟩

/-! ### Virtual-channel meta and `AddKnownResolve` (db/task.go) -/

/-- `db.VirtualChannelMeta` (the fields `AddKnownResolve` reads and writes:
the virtual-channel key and the stored last known resolve; `LastKnownResolve`
is stored as the BOC of the state, and BOC round-trips, so it is embedded as
the state itself). -/
structure VirtualChannelMeta where
  key : Bytes
  status : Nat
  lastKnownResolve : Option VirtualChannelState
deriving DecidableEq, Repr

/-- `VirtualChannelMeta.AddKnownResolve`: verify the new resolve's signature
against the virtual-channel key, reject with `ErrNewerStateIsKnown` when a
strictly higher-amount resolve is already stored, otherwise store it. -/
def AddKnownResolve (meta : VirtualChannelMeta) (state : VirtualChannelState) :
    Except String VirtualChannelMeta :=
  if state.verify meta.key then
    match meta.lastKnownResolve with
    | some oldState =>
      if state.amount < oldState.amount then .error "newer state is already known"
      else .ok { meta with lastKnownResolve := some state }
    | none => .ok { meta with lastKnownResolve := some state }
  else .error "incorrect signature"

/-- C5 counterexample: `AddKnownResolve` performs no capacity check, so a
validly signed resolve whose amount (6) exceeds the capacity (5) of the
condition carrying the same key is stored — "always ≤ the condition's
capacity" fails. -/
theorem c5_counterexample :
    AddKnownResolve { key := [1], status := 1, lastKnownResolve := none }
        { amount := 6, sigKey := some [1] } =
      .ok { key := [1], status := 1,
            lastKnownResolve := some { amount := 6, sigKey := some [1] } } ∧
    wCond.key = [1] ∧ (6 : Int) > wCond.capacity :=
  ⟨rfl, rfl, by decide⟩

/-- C5 (amended): `AddKnownResolve` errors when the signature does not verify
against the virtual-channel key; returns `ErrNewerStateIsKnown` (leaving the
stored resolve unchanged — an error produces no updated meta) when the stored
resolve's amount is greater than the new amount; otherwise stores the new
resolve.  Hence the stored amount never decreases.  No comparison with the
condition's capacity is performed. -/
theorem c5_addKnownResolve (meta : VirtualChannelMeta) (state : VirtualChannelState) :
    (state.verify meta.key = false →
      AddKnownResolve meta state = .error "incorrect signature") ∧
    (∀ old, state.verify meta.key = true → meta.lastKnownResolve = some old →
      old.amount > state.amount →
      AddKnownResolve meta state = .error "newer state is already known") ∧
    (∀ old, state.verify meta.key = true → meta.lastKnownResolve = some old →
      old.amount ≤ state.amount →
      AddKnownResolve meta state = .ok { meta with lastKnownResolve := some state }) ∧
    (state.verify meta.key = true → meta.lastKnownResolve = none →
      AddKnownResolve meta state = .ok { meta with lastKnownResolve := some state }) ∧
    (∀ meta2, AddKnownResolve meta state = .ok meta2 →
      ∀ old, meta.lastKnownResolve = some old →
      ∃ nw, meta2.lastKnownResolve = some nw ∧ old.amount ≤ nw.amount) := by
  refine ⟨?_, ?_, ?_, ?_, ?_⟩
  · intro hv
    simp only [AddKnownResolve, hv, Bool.false_eq_true, if_false]
  · intro old hv hold hgt
    simp only [AddKnownResolve, hv, if_true, hold]
    rw [if_pos (by omega)]
  · intro old hv hold hle
    simp only [AddKnownResolve, hv, if_true, hold]
    rw [if_neg (by omega)]
  · intro hv hnone
    simp only [AddKnownResolve, hv, if_true, hnone]
  · intro meta2 h old hold
    simp only [AddKnownResolve, hold] at h
    split at h
    · split at h
      · exact absurd h (by simp)
      · rename_i hlt
        refine ⟨state, ?_, by omega⟩
        have h2 := Except.ok.inj h
        rw [← h2]
    · exact absurd h (by simp)

/-- C5 witness: concrete monotone accumulation — amount 8 after 10 is
rejected, 15 after 10 is stored. -/
theorem c5_witness :
    (VirtualChannelState.verify { amount := 8, sigKey := some [1] } [1] = true ∧
      AddKnownResolve
          { key := [1], status := 1, lastKnownResolve := some { amount := 10, sigKey := some [1] } }
          { amount := 8, sigKey := some [1] } = .error "newer state is already known") ∧
    AddKnownResolve
        { key := [1], status := 1, lastKnownResolve := some { amount := 10, sigKey := some [1] } }
        { amount := 15, sigKey := some [1] } =
      .ok { key := [1], status := 1,
            lastKnownResolve := some { amount := 15, sigKey := some [1] } } :=
  ⟨⟨by decide,
    (c5_addKnownResolve
        { key := [1], status := 1, lastKnownResolve := some { amount := 10, sigKey := some [1] } }
        { amount := 8, sigKey := some [1] }).2.1
      { amount := 10, sigKey := some [1] } (by decide) rfl (by decide)⟩,
   (c5_addKnownResolve
        { key := [1], status := 1, lastKnownResolve := some { amount := 10, sigKey := some [1] } }
        { amount := 15, sigKey := some [1] }).2.2.1
      { amount := 10, sigKey := some [1] } (by decide) rfl (by decide)⟩

/-! ### The transactional KV store (`LevelDB.Transaction`, db/leveldb/db.go) -/

/-- The plain byte-key/byte-value store, an association list. -/
abbrev KVStore := List (Bytes × Bytes)

/-- Store lookup. -/
def kvGet : KVStore → Bytes → Option Bytes
  | [], _ => none
  | (k0, v0) :: rest, k => if k = k0 then some v0 else kvGet rest k

/-- Store insert/replace. -/
def kvPut (s : KVStore) (k v : Bytes) : KVStore :=
  match s with
  | [] => [(k, v)]
  | (k0, v0) :: rest => if k = k0 then (k, v) :: rest else (k0, v0) :: kvPut rest k v

/-- Store delete. -/
def kvDelete (s : KVStore) (k : Bytes) : KVStore :=
  match s with
  | [] => []
  | (k0, v0) :: rest => if k = k0 then rest else (k0, v0) :: kvDelete rest k

/-- One write buffered in a `leveldb.Batch`. -/
inductive BatchOp where
  | put (key value : Bytes) : BatchOp
  | del (key : Bytes) : BatchOp
deriving DecidableEq, Repr

/-- Apply a batch to the store in order (`leveldb.DB.Write` of the batch). -/
def applyBatch (s : KVStore) (b : List BatchOp) : KVStore :=
  b.foldl (fun acc op =>
    match op with
    | .put k v => kvPut acc k v
    | .del k => kvDelete acc k) s

/-- `leveldb.Tx`: a read snapshot taken at transaction start plus the write
batch accumulated through `batchWrap`. -/
structure LTx where
  snapshot : KVStore
  batch : List BatchOp
deriving DecidableEq, Repr

/-- `Executor.Get` inside a transaction reads the snapshot, never the batch. -/
def txGet (tx : LTx) (k : Bytes) : Option Bytes := kvGet tx.snapshot k

/-- `LevelDB.Transaction`: when the context already carries a transaction, run
`f` directly inside it (no nesting); otherwise take a snapshot of the store,
run `f` against a fresh transaction, discard the batch and return `f`'s error
on failure, and atomically (and, in Go, durably) write the batch on success.
The result is (store after the call, transaction handed back to an enclosing
scope if any, outcome). -/
def Transaction (store : KVStore) (ctxTx : Option LTx)
    (f : LTx → LTx × Except String Unit) : KVStore × Option LTx × Except String Unit :=
  match ctxTx with
  | some tx =>
    let r := f tx
    (store, some r.1, r.2)
  | none =>
    let r := f { snapshot := store, batch := [] }
    match r.2 with
    | .error e => (store, none, .error e)
    | .ok _ => (applyBatch store r.1.batch, none, .ok ())

/-- C8: `Transaction` commits the accumulated batch exactly when `f`
succeeds; an error from `f` leaves the store untouched and is returned
unchanged; a re-entrant call inside an ongoing transaction runs `f` directly
on the outer transaction without touching the store; and every read inside
the transaction goes to the snapshot taken at transaction start (`f` is run
on `{snapshot := store, batch := []}`). -/
theorem c8_transaction (store : KVStore) (f : LTx → LTx × Except String Unit) :
    (∀ tx1 e, f { snapshot := store, batch := [] } = (tx1, .error e) →
      Transaction store none f = (store, none, .error e)) ∧
    (∀ tx1, f { snapshot := store, batch := [] } = (tx1, .ok ()) →
      Transaction store none f = (applyBatch store tx1.batch, none, .ok ())) ∧
    (∀ tx, Transaction store (some tx) f = (store, some (f tx).1, (f tx).2)) ∧
    (∀ tx k, txGet tx k = kvGet tx.snapshot k) := by
  refine ⟨?_, ?_, ?_, ?_⟩
  · intro tx1 e hf
    simp [Transaction, hf]
  · intro tx1 hf
    simp [Transaction, hf]
  · intro tx
    simp [Transaction]
  · intro tx k
    rfl

/-- C8 witness: a concrete committing transaction and a concrete aborting one. -/
theorem c8_witness :
    ((fun tx => ({ tx with batch := [BatchOp.put [1] [2]] }, Except.ok ())) :
        LTx → LTx × Except String Unit) { snapshot := [], batch := [] } =
      ({ snapshot := [], batch := [BatchOp.put [1] [2]] }, Except.ok ()) ∧
    Transaction [] none
        (fun tx => ({ tx with batch := [BatchOp.put [1] [2]] }, Except.ok ())) =
      ([([1], [2])], none, .ok ()) ∧
    Transaction [] none
        (fun tx => ({ tx with batch := [BatchOp.put [1] [2]] }, Except.error "boom")) =
      ([], none, .error "boom") := by
  refine ⟨rfl, ?_, ?_⟩
  · have h := (c8_transaction [] (fun tx =>
      ({ tx with batch := [BatchOp.put [1] [2]] }, Except.ok ()))).2.1
      { snapshot := [], batch := [BatchOp.put [1] [2]] } rfl
    simpa using h
  · exact (c8_transaction [] (fun tx =>
      ({ tx with batch := [BatchOp.put [1] [2]] }, Except.error "boom"))).1
      { snapshot := [], batch := [BatchOp.put [1] [2]] } "boom" rfl

/-! ### The durable task queue (db/task.go)

The `tv:` keyspace (task bodies, JSON-marshalled — marshalling round-trips,
so bodies are embedded as the records themselves) and the `ti:` keyspace
(per-pool order index `ti:<pool>:<u64-be ready-at>:<queue>` → `tv:` key) are
the two fields of `TaskDB`; one pool is modelled, and forward iteration over
the `ti:` prefix visits `index` in list order, so well-formed states keep
`index` sorted by (ready-at, queue). All times are unix nanoseconds. -/

/-- `db.Task`. -/
structure Task where
  id : Bytes
  typ : String
  queue : Bytes
  data : Bytes
  executeAfter : Nat
  executeTill : Option Nat
  lockedTill : Option Nat
  reExecuteAfter : Option Nat
  completedAt : Option Nat
  lastError : String
  createdAt : Nat
deriving DecidableEq, Repr

/-- One `ti:` index entry: key `(ready-at nanos, queue)`, value the `tv:` key. -/
structure IndexEntry where
  readyAt : Nat
  queue : Bytes
  target : Bytes
deriving DecidableEq, Repr

/-- The task store: `ti:` index entries (in key order) and `tv:` bodies. -/
structure TaskDB where
  index : List IndexEntry
  bodies : List (Bytes × Task)
deriving DecidableEq, Repr

/-- Body lookup (`tx.Get` of a `tv:` key). -/
def bodyGet : List (Bytes × Task) → Bytes → Option Task
  | [], _ => none
  | (k0, v0) :: rest, k => if k = k0 then some v0 else bodyGet rest k

/-- Body insert/replace (`tx.Put` of a `tv:` key). -/
def bodySet (bs : List (Bytes × Task)) (k : Bytes) (v : Task) : List (Bytes × Task) :=
  match bs with
  | [] => [(k, v)]
  | (k0, v0) :: rest => if k = k0 then (k, v) :: rest else (k0, v0) :: bodySet rest k v

/-- Lexicographic byte-string order (leveldb key order within a prefix). -/
def bytesLt : Bytes → Bytes → Bool
  | [], [] => false
  | [], _ :: _ => true
  | _ :: _, [] => false
  | a :: as2, b :: bs2 => if a < b then true else if a = b then bytesLt as2 bs2 else false

/-- `getTaskIndexKey`: the `ti:` entry of a task — big-endian 8-byte
`execute_after` then the queue bytes, pointing at the `tv:` key. -/
def getTaskIndexKey (t : Task) : IndexEntry :=
  { readyAt := t.executeAfter, queue := t.queue, target := t.id }

/-- Insert an index entry at its key position (a `tx.Put` of a `ti:` key;
an entry with the same (ready-at, queue) key is overwritten). -/
def indexPut (idx : List IndexEntry) (e : IndexEntry) : List IndexEntry :=
  match idx with
  | [] => [e]
  | x :: rest =>
    if e.readyAt < x.readyAt ∨ (e.readyAt = x.readyAt ∧ bytesLt e.queue x.queue) then
      e :: x :: rest
    else if e.readyAt = x.readyAt ∧ e.queue = x.queue then e :: rest
    else x :: indexPut rest e

/-- `DB.createTask`: reject an already-present id with `ErrAlreadyExists`,
otherwise write the body and its index entry. -/
def createTask (db : TaskDB) (task : Task) : Except String TaskDB :=
  if (bodyGet db.bodies task.id).isSome then .error "already exists"
  else .ok { index := indexPut db.index (getTaskIndexKey task)
             bodies := bodySet db.bodies task.id task }

/-- `DB.CreateTask`: build the task (with `execute_after` defaulting to now)
and treat `ErrAlreadyExists` from `createTask` as success, committing nothing. -/
def CreateTask (now : Nat) (db : TaskDB) (typ : String) (queue id : Bytes)
    (data : Bytes) (executeAfter executeTill : Option Nat) : Except String TaskDB :=
  match createTask db
      { id := id, typ := typ, queue := queue, data := data
        executeAfter := executeAfter.getD now, executeTill := executeTill
        lockedTill := none, reExecuteAfter := none, completedAt := none
        lastError := "", createdAt := now } with
  | .error e => if e = "already exists" then .ok db else .error e
  | .ok db2 => .ok db2

/-- `DB.RetryTask`: a completed or unlocked task is a silent no-op; otherwise
clear `locked_till`, set `last_error` and `re_execute_after` and rewrite only
the `tv:` body (`ErrNotFound` if the body is absent); the `ti:` index is
never touched. -/
def RetryTask (db : TaskDB) (task : Task) (reason : String) (retryAt : Nat) :
    Except String TaskDB :=
  if task.completedAt ≠ none ∨ task.lockedTill = none then .ok db
  else
    let task2 := { task with lockedTill := none, lastError := reason
                             reExecuteAfter := some retryAt }
    if (bodyGet db.bodies task.id).isSome then
      .ok { db with bodies := bodySet db.bodies task.id task2 }
    else .error "not found"

/-- `LockedTill` lease length: 5 minutes in nanoseconds. -/
def lockPeriod : Nat := 5 * 60 * 1000000000

/-- `o.After(now)` for an optional time: present and strictly later. -/
def optAfter (o : Option Nat) (now : Nat) : Bool :=
  match o with
  | some t => now < t
  | none => false

/-- `o.Before(now)` for an optional time: present and strictly earlier. -/
def optBefore (o : Option Nat) (now : Nat) : Bool :=
  match o with
  | some t => t < now
  | none => false

/-- The iteration of `DB.AcquireTask` over the `ti:` prefix: stop at the
first not-yet-ready key; skip whole queues that are locked or waiting to
retry; drop expired entries from the index; lock and return the first
eligible task.  Returns the locked `(tv:`-key, task)` and the deleted
entries; a failed body read aborts the surrounding transaction. -/
def acquireLoop (now : Nat) (bodies : List (Bytes × Task)) :
    List IndexEntry → List Bytes → List IndexEntry →
    Except String (Option (Bytes × Task) × List IndexEntry)
  | [], _, dels => .ok (none, dels)
  | e :: rest, toSkip, dels =>
    if now < e.readyAt then .ok (none, dels)
    else if e.queue ∈ toSkip then acquireLoop now bodies rest toSkip dels
    else
      match bodyGet bodies e.target with
      | none => .error "not found"
      | some task =>
        if task.completedAt.isSome then acquireLoop now bodies rest toSkip dels
        else if optAfter task.lockedTill now then
          acquireLoop now bodies rest (task.queue :: toSkip) dels
        else if optAfter task.reExecuteAfter now then
          acquireLoop now bodies rest (task.queue :: toSkip) dels
        else if optBefore task.executeTill now then
          acquireLoop now bodies rest toSkip (e :: dels)
        else .ok (some (e.target, { task with lockedTill := some (now + lockPeriod) }), dels)

/-- `DB.AcquireTask`: run the iteration inside a transaction; on success the
batch (the locked body rewrite and the deletions of expired index entries) is
applied to the store. -/
def AcquireTask (now : Nat) (db : TaskDB) : Except String (Option Task × TaskDB) :=
  match acquireLoop now db.bodies db.index [] [] with
  | .error e => .error e
  | .ok (none, dels) =>
    .ok (none, { db with index := db.index.filter (fun x => decide (x ∉ dels)) })
  | .ok (some (dk, t), dels) =>
    .ok (some t, { index := db.index.filter (fun x => decide (x ∉ dels))
                   bodies := bodySet db.bodies dk t })

/-- A task is eligible to run now: not completed, not locked past now, not
waiting on `re_execute_after`, not expired. -/
def taskEligible (now : Nat) (t : Task) : Bool :=
  t.completedAt.isNone && !optAfter t.lockedTill now && !optAfter t.reExecuteAfter now &&
    !optBefore t.executeTill now

/-- A task blocks its queue: not completed but locked or waiting to retry. -/
def taskBlocked (now : Nat) (t : Task) : Bool :=
  t.completedAt.isNone && (optAfter t.lockedTill now || optAfter t.reExecuteAfter now)

/-- Well-formedness of one index entry: its `tv:` target exists and agrees
with the entry's queue and ready-at key (as `getTaskIndexKey` guarantees). -/
def entryWF (bodies : List (Bytes × Task)) (e : IndexEntry) : Bool :=
  match bodyGet bodies e.target with
  | some t => decide (t.queue = e.queue) && decide (t.executeAfter = e.readyAt) &&
      decide (t.id = e.target)
  | none => false

/-- Well-formed task store: every index entry is well-formed. -/
def dbWF (db : TaskDB) : Bool := db.index.all (entryWF db.bodies)

/-- The index list is strictly sorted by (ready-at, queue) — leveldb key
order of the `ti:` keyspace. -/
def sortedIndexB : List IndexEntry → Bool
  | [] => true
  | [_] => true
  | a :: b :: rest =>
    (decide (a.readyAt < b.readyAt) ||
      (decide (a.readyAt = b.readyAt) && bytesLt a.queue b.queue)) &&
    sortedIndexB (b :: rest)

/-- The body of the first index entry of queue `q` (if any) is blocked. -/
def firstOfQueueBlocked (now : Nat) (bodies : List (Bytes × Task)) :
    List IndexEntry → Bytes → Prop
  | [], _ => True
  | e :: rest, q =>
    if e.queue = q then
      ∃ te, bodyGet bodies e.target = some te ∧ taskBlocked now te = true
    else firstOfQueueBlocked now bodies rest q

/-- C9: `CreateTask` is idempotent in the task id — when a body with the same
id is already stored under `tv:`, it returns success and the store (body and
`ti:` index alike) is unchanged, whatever the new payload, queue or schedule. -/
theorem c9_createTask_idempotent (now : Nat) (db : TaskDB) (typ : String)
    (queue id data : Bytes) (ea et : Option Nat) (t0 : Task)
    (h : bodyGet db.bodies id = some t0) :
    CreateTask now db typ queue id data ea et = .ok db := by
  simp only [CreateTask, createTask, h, Option.isSome_some, if_true]

/-- A stored task used in C9/C10 witnesses. -/
def wTask : Task :=
  { id := [3], typ := "w", queue := [2], data := [9], executeAfter := 10
    executeTill := none, lockedTill := none, reExecuteAfter := none
    completedAt := none, lastError := "", createdAt := 1 }

/-- A store holding `wTask` and its index entry. -/
def wTaskDB : TaskDB :=
  { index := [getTaskIndexKey wTask], bodies := [([3], wTask)] }

/-- C9 witness: re-creating id `[3]` with a different payload, queue and
schedule succeeds and leaves the store unchanged. -/
theorem c9_witness :
    bodyGet wTaskDB.bodies [3] = some wTask ∧
    CreateTask 99 wTaskDB "other" [7] [3] [8] (some 55) (some 77) = .ok wTaskDB :=
  ⟨rfl, c9_createTask_idempotent 99 wTaskDB "other" [7] [3] [8] (some 55) (some 77)
    wTask rfl⟩

/-- The locked, uncompleted task of the C10 counterexample. -/
def c10Task : Task :=
  { id := [1], typ := "t", queue := [2], data := [], executeAfter := 0
    executeTill := none, lockedTill := some 10, reExecuteAfter := none
    completedAt := none, lastError := "", createdAt := 0 }

/-- C10 counterexample: `RetryTask` on a locked, uncompleted task whose body
is absent from the store returns `ErrNotFound` instead of rewriting a `tv:`
body — so the claim's unconditional "otherwise it rewrites…" fails. -/
theorem c10_counterexample :
    RetryTask { index := [], bodies := [] } c10Task "boom" 50 = .error "not found" ∧
    c10Task.completedAt = none ∧ c10Task.lockedTill ≠ none :=
  ⟨rfl, rfl, by decide⟩

/-- The body `RetryTask` writes back: lease cleared, error recorded, retry
scheduled. -/
def retryUpdated (t : Task) (reason : String) (retryAt : Nat) : Task :=
  { t with lockedTill := none, lastError := reason, reExecuteAfter := some retryAt }

/-- C10 (amended): `RetryTask` on a completed or unlocked task succeeds
without writing anything; otherwise, provided a `tv:` body with the task's id
exists, it rewrites only that body (clearing `locked_till`, setting
`last_error` and `re_execute_after`) and never touches the `ti:` index (the
result keeps `db.index` verbatim), so the queue position is unchanged; when
the body is absent it returns `ErrNotFound` and writes nothing. -/
theorem c10_retryTask (db : TaskDB) (t : Task) (reason : String) (retryAt : Nat) :
    (t.completedAt ≠ none ∨ t.lockedTill = none →
      RetryTask db t reason retryAt = .ok db) ∧
    (t.completedAt = none → t.lockedTill ≠ none →
      ∀ t0, bodyGet db.bodies t.id = some t0 →
      RetryTask db t reason retryAt =
        .ok { db with bodies := bodySet db.bodies t.id (retryUpdated t reason retryAt) }) ∧
    (t.completedAt = none → t.lockedTill ≠ none → bodyGet db.bodies t.id = none →
      RetryTask db t reason retryAt = .error "not found") := by
  refine ⟨?_, ?_, ?_⟩
  · intro hc
    simp only [RetryTask, if_pos hc]
  · intro hc hl t0 hb
    simp only [RetryTask, hb]
    rw [if_neg (by tauto)]
    simp [retryUpdated]
  · intro hc hl hb
    simp only [RetryTask, hb]
    rw [if_neg (by tauto)]
    simp

/-- The locked variant of `wTask` used in the C10 witness. -/
def wTaskLocked : Task := { wTask with lockedTill := some 20 }

/-- A store holding the locked `wTask`. -/
def wTaskLockedDB : TaskDB :=
  { index := [getTaskIndexKey wTask], bodies := [([3], wTaskLocked)] }

/-- C10 witness: retrying the locked task rewrites only its body; the index
of the result is untouched. -/
theorem c10_witness :
    wTaskLocked.completedAt = none ∧ wTaskLocked.lockedTill ≠ none ∧
    bodyGet wTaskLockedDB.bodies [3] = some wTaskLocked ∧
    RetryTask wTaskLockedDB wTaskLocked "err" 60 =
      .ok { wTaskLockedDB with
        bodies := bodySet wTaskLockedDB.bodies [3] (retryUpdated wTaskLocked "err" 60) } :=
  ⟨rfl, by decide, rfl,
   (c10_retryTask wTaskLockedDB wTaskLocked "err" 60).2.1 rfl (by decide)
     wTaskLocked rfl⟩

theorem eligible_false_of_completed (now : Nat) (t : Task)
    (h : t.completedAt.isSome = true) : taskEligible now t = false := by
  cases hc : t.completedAt with
  | none => rw [hc] at h; exact absurd h (by simp)
  | some v => simp [taskEligible, hc]

theorem eligible_false_of_locked (now : Nat) (t : Task)
    (h : optAfter t.lockedTill now = true) : taskEligible now t = false := by
  simp [taskEligible, h]

theorem eligible_false_of_reexec (now : Nat) (t : Task)
    (h : optAfter t.reExecuteAfter now = true) : taskEligible now t = false := by
  simp [taskEligible, h]

theorem eligible_false_of_expired (now : Nat) (t : Task)
    (h : optBefore t.executeTill now = true) : taskEligible now t = false := by
  simp [taskEligible, h]

/-- Deleted-entry accumulator only grows along the iteration. -/
theorem acquireLoop_dels_mono (now : Nat) (bodies : List (Bytes × Task)) :
    ∀ (entries : List IndexEntry) (toSkip : List Bytes) (dels : List IndexEntry)
      (r : Option (Bytes × Task)) (dels2 : List IndexEntry),
      acquireLoop now bodies entries toSkip dels = .ok (r, dels2) →
      ∀ e ∈ dels, e ∈ dels2 := by
  intro entries
  induction entries with
  | nil =>
    intro toSkip dels r dels2 h e he
    simp only [acquireLoop, Except.ok.injEq, Prod.mk.injEq] at h
    rw [← h.2]
    exact he
  | cons hd tl ih =>
    intro toSkip dels r dels2 h e he
    simp only [acquireLoop] at h
    split at h
    · simp only [Except.ok.injEq, Prod.mk.injEq] at h
      rw [← h.2]
      exact he
    split at h
    · exact ih _ _ _ _ h e he
    cases hb : bodyGet bodies hd.target with
    | none => rw [hb] at h; exact absurd h (by simp)
    | some task =>
      rw [hb] at h
      simp only at h
      split at h
      · exact ih _ _ _ _ h e he
      split at h
      · exact ih _ _ _ _ h e he
      split at h
      · exact ih _ _ _ _ h e he
      split at h
      · exact ih _ _ _ _ h e (List.mem_cons_of_mem _ he)
      · simp only [Except.ok.injEq, Prod.mk.injEq] at h
        rw [← h.2]
        exact he

/-- Full characterization of a successful acquisition: the returned task is
the locked body of some visited entry that is ready, in no skipped queue and
eligible, and every earlier entry of the same queue has a non-eligible body. -/
theorem acquireLoop_some_spec (now : Nat) (bodies : List (Bytes × Task)) :
    ∀ (entries : List IndexEntry) (toSkip : List Bytes) (dels dels2 : List IndexEntry)
      (dk : Bytes) (t : Task),
      acquireLoop now bodies entries toSkip dels = .ok (some (dk, t), dels2) →
      ∃ l1 e l2 t0, entries = l1 ++ e :: l2 ∧
        bodyGet bodies e.target = some t0 ∧
        dk = e.target ∧
        t = { t0 with lockedTill := some (now + lockPeriod) } ∧
        e.readyAt ≤ now ∧
        e.queue ∉ toSkip ∧
        taskEligible now t0 = true ∧
        (∀ e2 ∈ l1, e2.queue = e.queue →
          ∃ te, bodyGet bodies e2.target = some te ∧ taskEligible now te = false) := by
  intro entries
  induction entries with
  | nil =>
    intro toSkip dels dels2 dk t h
    exact absurd h (by simp [acquireLoop])
  | cons hd tl ih =>
    intro toSkip dels dels2 dk t h
    simp only [acquireLoop] at h
    split at h
    · exact absurd h (by simp)
    rename_i hready
    split at h
    · rename_i hskip
      obtain ⟨l1, e, l2, t0, heq, hb, hdk, ht, hr, hq, hel, hprev⟩ := ih _ _ _ _ _ h
      refine ⟨hd :: l1, e, l2, t0, by rw [heq]; rfl, hb, hdk, ht, hr, hq, hel, ?_⟩
      intro e2 he2 hqe
      rcases List.mem_cons.mp he2 with he2 | he2
      · subst he2
        rw [hqe] at hskip
        exact absurd hskip hq
      · exact hprev e2 he2 hqe
    rename_i hnoskip
    cases hb0 : bodyGet bodies hd.target with
    | none => rw [hb0] at h; exact absurd h (by simp)
    | some task =>
      rw [hb0] at h
      simp only at h
      split at h
      · rename_i hcomp
        obtain ⟨l1, e, l2, t0, heq, hb, hdk, ht, hr, hq, hel, hprev⟩ := ih _ _ _ _ _ h
        refine ⟨hd :: l1, e, l2, t0, by rw [heq]; rfl, hb, hdk, ht, hr, hq, hel, ?_⟩
        intro e2 he2 hqe
        rcases List.mem_cons.mp he2 with he2 | he2
        · subst he2
          exact ⟨task, hb0, eligible_false_of_completed now task hcomp⟩
        · exact hprev e2 he2 hqe
      split at h
      · rename_i hlock
        obtain ⟨l1, e, l2, t0, heq, hb, hdk, ht, hr, hq, hel, hprev⟩ := ih _ _ _ _ _ h
        refine ⟨hd :: l1, e, l2, t0, by rw [heq]; rfl, hb, hdk, ht, hr,
          fun hmem => hq (List.mem_cons_of_mem _ hmem), hel, ?_⟩
        intro e2 he2 hqe
        rcases List.mem_cons.mp he2 with he2 | he2
        · subst he2
          exact ⟨task, hb0, eligible_false_of_locked now task hlock⟩
        · exact hprev e2 he2 hqe
      split at h
      · rename_i hre
        obtain ⟨l1, e, l2, t0, heq, hb, hdk, ht, hr, hq, hel, hprev⟩ := ih _ _ _ _ _ h
        refine ⟨hd :: l1, e, l2, t0, by rw [heq]; rfl, hb, hdk, ht, hr,
          fun hmem => hq (List.mem_cons_of_mem _ hmem), hel, ?_⟩
        intro e2 he2 hqe
        rcases List.mem_cons.mp he2 with he2 | he2
        · subst he2
          exact ⟨task, hb0, eligible_false_of_reexec now task hre⟩
        · exact hprev e2 he2 hqe
      split at h
      · rename_i hexp
        obtain ⟨l1, e, l2, t0, heq, hb, hdk, ht, hr, hq, hel, hprev⟩ := ih _ _ _ _ _ h
        refine ⟨hd :: l1, e, l2, t0, by rw [heq]; rfl, hb, hdk, ht, hr, hq, hel, ?_⟩
        intro e2 he2 hqe
        rcases List.mem_cons.mp he2 with he2 | he2
        · subst he2
          exact ⟨task, hb0, eligible_false_of_expired now task hexp⟩
        · exact hprev e2 he2 hqe
      · rename_i hcomp hlock hre hexp
        simp only [Except.ok.injEq, Prod.mk.injEq, Option.some.injEq] at h
        obtain ⟨⟨hdk, ht⟩, hdels⟩ := h
        refine ⟨[], hd, tl, task, rfl, hb0, hdk.symm, ht.symm, by omega, hnoskip, ?_, by simp⟩
        simp only [taskEligible, Bool.and_eq_true, Bool.not_eq_true']
        refine ⟨⟨⟨?_, by simpa using hlock⟩, by simpa using hre⟩, by simpa using hexp⟩
        cases hc : task.completedAt with
        | none => rfl
        | some v => rw [hc] at hcomp; exact absurd rfl hcomp

theorem entryWF_elim (bodies : List (Bytes × Task)) (e : IndexEntry) (t : Task)
    (hwf : entryWF bodies e = true) (hb : bodyGet bodies e.target = some t) :
    t.queue = e.queue ∧ t.executeAfter = e.readyAt ∧ t.id = e.target := by
  simp only [entryWF, hb, Bool.and_eq_true, decide_eq_true_eq] at hwf
  tauto

theorem entryWF_isSome (bodies : List (Bytes × Task)) (e : IndexEntry)
    (hwf : entryWF bodies e = true) : (bodyGet bodies e.target).isSome = true := by
  cases hb : bodyGet bodies e.target with
  | none => rw [entryWF, hb] at hwf; exact absurd hwf (by simp)
  | some t => rfl

theorem dbWF_elim (db : TaskDB) (hwf : dbWF db = true) :
    ∀ e ∈ db.index, entryWF db.bodies e = true := by
  simpa [dbWF, List.all_eq_true] using hwf

theorem blocked_false_of_completed (now : Nat) (t : Task)
    (h : t.completedAt.isSome = true) : taskBlocked now t = false := by
  cases hc : t.completedAt with
  | none => rw [hc] at h; exact absurd h (by simp)
  | some v => simp [taskBlocked, hc]

theorem blocked_false_of_free (now : Nat) (t : Task)
    (hl : optAfter t.lockedTill now = false) (hr : optAfter t.reExecuteAfter now = false) :
    taskBlocked now t = false := by
  simp [taskBlocked, hl, hr]

theorem blocked_true_of (now : Nat) (t : Task) (hcomp : t.completedAt.isSome = false)
    (h : optAfter t.lockedTill now = true ∨ optAfter t.reExecuteAfter now = true) :
    taskBlocked now t = true := by
  cases hc : t.completedAt with
  | none => rcases h with h | h <;> simp [taskBlocked, hc, h]
  | some v => rw [hc] at hcomp; exact absurd hcomp (by simp)

/-- Head-of-line blocking: when the first index entry of queue `q` carries a
blocked body (or `q` is already in the skip list), the returned task is never
of queue `q`. -/
theorem acquireLoop_blocked_queue (now : Nat) (bodies : List (Bytes × Task)) :
    ∀ (entries : List IndexEntry) (toSkip : List Bytes) (dels dels2 : List IndexEntry)
      (q dk : Bytes) (t : Task),
      (∀ e ∈ entries, entryWF bodies e = true) →
      (q ∈ toSkip ∨ firstOfQueueBlocked now bodies entries q) →
      acquireLoop now bodies entries toSkip dels = .ok (some (dk, t), dels2) →
      t.queue ≠ q := by
  intro entries
  induction entries with
  | nil =>
    intro toSkip dels dels2 q dk t hwf hblk h
    exact absurd h (by simp [acquireLoop])
  | cons hd tl ih =>
    intro toSkip dels dels2 q dk t hwf hblk h
    have hwfhd := hwf hd (List.mem_cons_self hd tl)
    have hwftl : ∀ e ∈ tl, entryWF bodies e = true :=
      fun e he => hwf e (List.mem_cons_of_mem hd he)
    simp only [acquireLoop] at h
    split at h
    · exact absurd h (by simp)
    rename_i hready
    split at h
    · rename_i hskip
      refine ih _ _ _ _ _ _ hwftl ?_ h
      rcases hblk with hblk | hblk
      · exact Or.inl hblk
      · by_cases hq : hd.queue = q
        · exact Or.inl (hq ▸ hskip)
        · simp only [firstOfQueueBlocked, if_neg hq] at hblk
          exact Or.inr hblk
    rename_i hnoskip
    cases hb0 : bodyGet bodies hd.target with
    | none => rw [hb0] at h; exact absurd h (by simp)
    | some task =>
      obtain ⟨hqueue, _, _⟩ := entryWF_elim bodies hd task hwfhd hb0
      rw [hb0] at h
      simp only at h
      split at h
      · rename_i hcomp
        refine ih _ _ _ _ _ _ hwftl ?_ h
        rcases hblk with hblk | hblk
        · exact Or.inl hblk
        · by_cases hq : hd.queue = q
          · simp only [firstOfQueueBlocked, if_pos hq] at hblk
            obtain ⟨te, hbte, hblocked⟩ := hblk
            rw [hb0] at hbte
            cases Option.some.inj hbte
            rw [blocked_false_of_completed now task hcomp] at hblocked
            exact absurd hblocked (by simp)
          · simp only [firstOfQueueBlocked, if_neg hq] at hblk
            exact Or.inr hblk
      split at h
      · rename_i hlock
        refine ih _ _ _ _ _ _ hwftl ?_ h
        rcases hblk with hblk | hblk
        · exact Or.inl (List.mem_cons_of_mem _ hblk)
        · by_cases hq : hd.queue = q
          · exact Or.inl (by rw [← hq, ← hqueue]; exact List.mem_cons_self _ _)
          · simp only [firstOfQueueBlocked, if_neg hq] at hblk
            exact Or.inr hblk
      split at h
      · rename_i hre
        refine ih _ _ _ _ _ _ hwftl ?_ h
        rcases hblk with hblk | hblk
        · exact Or.inl (List.mem_cons_of_mem _ hblk)
        · by_cases hq : hd.queue = q
          · exact Or.inl (by rw [← hq, ← hqueue]; exact List.mem_cons_self _ _)
          · simp only [firstOfQueueBlocked, if_neg hq] at hblk
            exact Or.inr hblk
      split at h
      · rename_i hexp
        refine ih _ _ _ _ _ _ hwftl ?_ h
        rcases hblk with hblk | hblk
        · exact Or.inl hblk
        · by_cases hq : hd.queue = q
          · rename_i hcomp hlock hre
            simp only [firstOfQueueBlocked, if_pos hq] at hblk
            obtain ⟨te, hbte, hblocked⟩ := hblk
            rw [hb0] at hbte
            cases Option.some.inj hbte
            rw [blocked_false_of_free now task (by simpa using hlock)
              (by simpa using hre)] at hblocked
            exact absurd hblocked (by simp)
          · simp only [firstOfQueueBlocked, if_neg hq] at hblk
            exact Or.inr hblk
      · rename_i hcomp hlock hre hexp
        simp only [Except.ok.injEq, Prod.mk.injEq, Option.some.injEq] at h
        obtain ⟨⟨_, ht⟩, _⟩ := h
        have htq : t.queue = hd.queue := by rw [← ht, ← hqueue]
        rcases hblk with hblk | hblk
        · intro hcontra
          rw [htq] at hcontra
          exact hnoskip (hcontra ▸ hblk)
        · by_cases hq : hd.queue = q
          · simp only [firstOfQueueBlocked, if_pos hq] at hblk
            obtain ⟨te, hbte, hblocked⟩ := hblk
            rw [hb0] at hbte
            cases Option.some.inj hbte
            rw [blocked_false_of_free now task (by simpa using hlock)
              (by simpa using hre)] at hblocked
            exact absurd hblocked (by simp)
          · rw [htq]; exact hq

/-- Expired entries reached by the iteration are deleted from the index. -/
theorem acquireLoop_expired_deleted (now : Nat) (bodies : List (Bytes × Task)) :
    ∀ (l1 : List IndexEntry) (e : IndexEntry) (l2 : List IndexEntry)
      (toSkip : List Bytes) (dels dels2 : List IndexEntry),
      (∀ e2 ∈ l1 ++ e :: l2, entryWF bodies e2 = true) →
      (∀ e2 ∈ l1, e2.readyAt ≤ now) →
      e.readyAt ≤ now →
      e.queue ∉ toSkip →
      (∀ e2 ∈ l1, e2.queue = e.queue →
        ∃ te, bodyGet bodies e2.target = some te ∧ taskBlocked now te = false) →
      (∃ te, bodyGet bodies e.target = some te ∧ te.completedAt.isSome = false ∧
        optAfter te.lockedTill now = false ∧ optAfter te.reExecuteAfter now = false ∧
        optBefore te.executeTill now = true) →
      acquireLoop now bodies (l1 ++ e :: l2) toSkip dels = .ok (none, dels2) →
      e ∈ dels2 := by
  intro l1
  induction l1 with
  | nil =>
    intro e l2 toSkip dels dels2 hwf hready1 hready hq hprev hexp h
    obtain ⟨te, hbte, hcomp, hlock, hre, hbef⟩ := hexp
    simp only [List.nil_append, acquireLoop] at h
    rw [if_neg (by omega), if_neg hq, hbte] at h
    simp only at h
    rw [if_neg (by simp [hcomp]), if_neg (by simp [hlock]), if_neg (by simp [hre]),
      if_pos (by simp [hbef])] at h
    exact acquireLoop_dels_mono now bodies l2 toSkip (e :: dels) none dels2 h e
      (List.mem_cons_self e dels)
  | cons hd l1t ih =>
    intro e l2 toSkip dels dels2 hwf hready1 hready hq hprev hexp h
    have hwfhd := hwf hd (List.mem_cons_self hd _)
    have hwftl : ∀ e2 ∈ l1t ++ e :: l2, entryWF bodies e2 = true :=
      fun e2 he2 => hwf e2 (List.mem_cons_of_mem hd he2)
    have hreadyhd := hready1 hd (List.mem_cons_self hd l1t)
    have hready1t : ∀ e2 ∈ l1t, e2.readyAt ≤ now :=
      fun e2 he2 => hready1 e2 (List.mem_cons_of_mem hd he2)
    have hprevt : ∀ e2 ∈ l1t, e2.queue = e.queue →
        ∃ te, bodyGet bodies e2.target = some te ∧ taskBlocked now te = false :=
      fun e2 he2 => hprev e2 (List.mem_cons_of_mem hd he2)
    simp only [List.cons_append, acquireLoop] at h
    rw [if_neg (by omega)] at h
    by_cases hskip : hd.queue ∈ toSkip
    · rw [if_pos hskip] at h
      exact ih e l2 toSkip dels dels2 hwftl hready1t hready hq hprevt hexp h
    · rw [if_neg hskip] at h
      cases hb0 : bodyGet bodies hd.target with
      | none =>
        have := entryWF_isSome bodies hd hwfhd
        rw [hb0] at this
        exact absurd this (by simp)
      | some task =>
        obtain ⟨hqueue, _, _⟩ := entryWF_elim bodies hd task hwfhd hb0
        rw [hb0] at h
        simp only at h
        by_cases hcomp : task.completedAt.isSome = true
        · rw [if_pos hcomp] at h
          exact ih e l2 toSkip dels dels2 hwftl hready1t hready hq hprevt hexp h
        · rw [if_neg hcomp] at h
          by_cases hlock : optAfter task.lockedTill now = true
          · rw [if_pos hlock] at h
            have hdq : hd.queue ≠ e.queue := by
              intro hcontra
              obtain ⟨te, hbte, hblocked⟩ := hprev hd (List.mem_cons_self hd l1t) hcontra
              rw [hb0] at hbte
              cases Option.some.inj hbte
              rw [blocked_true_of now task (by simpa using hcomp) (Or.inl hlock)] at hblocked
              exact absurd hblocked (by simp)
            refine ih e l2 (task.queue :: toSkip) dels dels2 hwftl hready1t hready ?_ hprevt hexp h
            intro hmem
            rcases List.mem_cons.mp hmem with hmem | hmem
            · exact hdq (by rw [← hqueue, ← hmem])
            · exact hq hmem
          · rw [if_neg hlock] at h
            by_cases hre : optAfter task.reExecuteAfter now = true
            · rw [if_pos hre] at h
              have hdq : hd.queue ≠ e.queue := by
                intro hcontra
                obtain ⟨te, hbte, hblocked⟩ := hprev hd (List.mem_cons_self hd l1t) hcontra
                rw [hb0] at hbte
                cases Option.some.inj hbte
                rw [blocked_true_of now task (by simpa using hcomp) (Or.inr hre)] at hblocked
                exact absurd hblocked (by simp)
              refine ih e l2 (task.queue :: toSkip) dels dels2 hwftl hready1t hready ?_ hprevt hexp h
              intro hmem
              rcases List.mem_cons.mp hmem with hmem | hmem
              · exact hdq (by rw [← hqueue, ← hmem])
              · exact hq hmem
            · rw [if_neg hre] at h
              by_cases hbef : optBefore task.executeTill now = true
              · rw [if_pos hbef] at h
                exact ih e l2 toSkip (hd :: dels) dels2 hwftl hready1t hready hq hprevt hexp h
              · rw [if_neg hbef] at h
                exact absurd h (by simp)

theorem taskEligible_true_elim (now : Nat) (t : Task) (h : taskEligible now t = true) :
    t.completedAt = none ∧ (∀ l, t.lockedTill = some l → l ≤ now) ∧
    (∀ r, t.reExecuteAfter = some r → r ≤ now) ∧ (∀ x, t.executeTill = some x → now ≤ x) := by
  simp only [taskEligible, Bool.and_eq_true, Bool.not_eq_true'] at h
  obtain ⟨⟨⟨h1, h2⟩, h3⟩, h4⟩ := h
  refine ⟨by simpa [Option.isNone_iff_eq_none] using h1, ?_, ?_, ?_⟩
  · intro l hl
    rw [hl] at h2
    simp only [optAfter, decide_eq_false_iff_not, not_lt] at h2
    exact h2
  · intro r hr
    rw [hr] at h3
    simp only [optAfter, decide_eq_false_iff_not, not_lt] at h3
    exact h3
  · intro x hx
    rw [hx] at h4
    simp only [optBefore, decide_eq_false_iff_not, not_lt] at h4
    exact h4

/-- C7: on a well-formed store whose `ti:` index is sorted in key order,
`AcquireTask` returns only a ready (`execute_after ≤ now`), unlocked
(`locked_till` absent or ≤ now), uncompleted, retry-ready and unexpired task,
rewrites that task's body with `locked_till = now + 5 min` in the same
transaction, and the task's index entry is preceded within its queue only by
entries with non-eligible bodies (it is the earliest eligible task of its
queue).  When the first entry of a queue is locked or waiting on
`re_execute_after`, no task of that queue is returned.  Expired entries
(`execute_till` past) reached by the iteration are deleted from the `ti:`
index. -/
theorem c7_acquireTask (now : Nat) (db : TaskDB)
    (hwf : dbWF db = true) (_hsorted : sortedIndexB db.index = true) :
    (∀ t db2, AcquireTask now db = .ok (some t, db2) →
      ∃ t0, bodyGet db.bodies t.id = some t0 ∧
        t = { t0 with lockedTill := some (now + lockPeriod) } ∧
        t0.executeAfter ≤ now ∧
        t0.completedAt = none ∧
        (∀ l, t0.lockedTill = some l → l ≤ now) ∧
        (∀ r, t0.reExecuteAfter = some r → r ≤ now) ∧
        (∀ x, t0.executeTill = some x → now ≤ x) ∧
        db2.bodies = bodySet db.bodies t.id t ∧
        (∃ l1 e l2, db.index = l1 ++ e :: l2 ∧ e.target = t.id ∧ e.queue = t.queue ∧
          ∀ e2 ∈ l1, e2.queue = t.queue →
            ∃ te, bodyGet db.bodies e2.target = some te ∧ taskEligible now te = false)) ∧
    (∀ q t db2, firstOfQueueBlocked now db.bodies db.index q →
      AcquireTask now db = .ok (some t, db2) → t.queue ≠ q) ∧
    (∀ db2 l1 e l2, AcquireTask now db = .ok (none, db2) →
      db.index = l1 ++ e :: l2 →
      (∀ e2 ∈ l1, e2.readyAt ≤ now) → e.readyAt ≤ now →
      (∀ e2 ∈ l1, e2.queue = e.queue →
        ∃ te, bodyGet db.bodies e2.target = some te ∧ taskBlocked now te = false) →
      (∃ te, bodyGet db.bodies e.target = some te ∧ te.completedAt.isSome = false ∧
        optAfter te.lockedTill now = false ∧ optAfter te.reExecuteAfter now = false ∧
        optBefore te.executeTill now = true) →
      e ∉ db2.index) := by
  have hwfAll := dbWF_elim db hwf
  refine ⟨?_, ?_, ?_⟩
  · intro t db2 h
    unfold AcquireTask at h
    cases hloop : acquireLoop now db.bodies db.index [] [] with
    | error e => rw [hloop] at h; exact absurd h (by simp)
    | ok p =>
      obtain ⟨r, dels⟩ := p
      cases r with
      | none => rw [hloop] at h; exact absurd h (by simp)
      | some dkt =>
        obtain ⟨dk, tk⟩ := dkt
        rw [hloop] at h
        simp only [Except.ok.injEq, Prod.mk.injEq, Option.some.injEq] at h
        obtain ⟨htk, hdb2⟩ := h
        subst hdb2
        rw [← htk]
        obtain ⟨l1, e, l2, t0, heq, hb, hdk, ht, hr, _, hel, hprev⟩ :=
          acquireLoop_some_spec now db.bodies db.index [] [] dels dk tk hloop
        have hemem : e ∈ db.index := by
          rw [heq]; exact List.mem_append_right l1 (List.mem_cons_self e l2)
        obtain ⟨hqueue, hea, hid⟩ := entryWF_elim db.bodies e t0 (hwfAll e hemem) hb
        have htid : tk.id = e.target := by rw [ht]; exact hid
        obtain ⟨hc, hl, hre2, hx⟩ := taskEligible_true_elim now t0 hel
        refine ⟨t0, by rw [htid]; exact hb, ht, by omega, hc, hl, hre2, hx, ?_, ?_⟩
        · show bodySet db.bodies dk tk = bodySet db.bodies tk.id tk
          rw [hdk, htid]
        · have htq : tk.queue = e.queue := by rw [ht]; exact hqueue
          refine ⟨l1, e, l2, heq, htid.symm, htq.symm, ?_⟩
          intro e2 he2 hqe
          exact hprev e2 he2 (by rw [← htq, hqe])
  · intro q t db2 hfb h
    unfold AcquireTask at h
    cases hloop : acquireLoop now db.bodies db.index [] [] with
    | error e => rw [hloop] at h; exact absurd h (by simp)
    | ok p =>
      obtain ⟨r, dels⟩ := p
      cases r with
      | none => rw [hloop] at h; exact absurd h (by simp)
      | some dkt =>
        obtain ⟨dk, tk⟩ := dkt
        rw [hloop] at h
        simp only [Except.ok.injEq, Prod.mk.injEq, Option.some.injEq] at h
        obtain ⟨htk, _⟩ := h
        rw [← htk]
        exact acquireLoop_blocked_queue now db.bodies db.index [] [] dels q dk tk
          hwfAll (Or.inr hfb) hloop
  · intro db2 l1 e l2 h heq hready1 hready hprev hexp
    unfold AcquireTask at h
    cases hloop : acquireLoop now db.bodies db.index [] [] with
    | error er => rw [hloop] at h; exact absurd h (by simp)
    | ok p =>
      obtain ⟨r, dels⟩ := p
      cases r with
      | some dkt => rw [hloop] at h; exact absurd h (by simp)
      | none =>
        rw [hloop] at h
        simp only [Except.ok.injEq, Prod.mk.injEq, true_and] at h
        have hdel : e ∈ dels := by
          rw [heq] at hloop
          exact acquireLoop_expired_deleted now db.bodies l1 e l2 [] [] dels
            (by rw [← heq]; exact hwfAll) hready1 hready (by simp) hprev hexp hloop
        rw [← h]
        intro hmem
        simp only [List.mem_filter, decide_eq_true_eq] at hmem
        exact hmem.2 hdel

/-- C7 witness: the concrete store `wTaskDB` is well-formed and sorted, so
the acquisition theorem applies to it at `now = 20`. -/
theorem c7_witness :
    dbWF wTaskDB = true ∧ sortedIndexB wTaskDB.index = true ∧
    ((∀ t db2, AcquireTask 20 wTaskDB = .ok (some t, db2) →
      ∃ t0, bodyGet wTaskDB.bodies t.id = some t0 ∧
        t = { t0 with lockedTill := some (20 + lockPeriod) } ∧
        t0.executeAfter ≤ 20 ∧
        t0.completedAt = none ∧
        (∀ l, t0.lockedTill = some l → l ≤ 20) ∧
        (∀ r, t0.reExecuteAfter = some r → r ≤ 20) ∧
        (∀ x, t0.executeTill = some x → 20 ≤ x) ∧
        db2.bodies = bodySet wTaskDB.bodies t.id t ∧
        (∃ l1 e l2, wTaskDB.index = l1 ++ e :: l2 ∧ e.target = t.id ∧ e.queue = t.queue ∧
          ∀ e2 ∈ l1, e2.queue = t.queue →
            ∃ te, bodyGet wTaskDB.bodies e2.target = some te ∧ taskEligible 20 te = false)) ∧
    (∀ q t db2, firstOfQueueBlocked 20 wTaskDB.bodies wTaskDB.index q →
      AcquireTask 20 wTaskDB = .ok (some t, db2) → t.queue ≠ q) ∧
    (∀ db2 l1 e l2, AcquireTask 20 wTaskDB = .ok (none, db2) →
      wTaskDB.index = l1 ++ e :: l2 →
      (∀ e2 ∈ l1, e2.readyAt ≤ 20) → e.readyAt ≤ 20 →
      (∀ e2 ∈ l1, e2.queue = e.queue →
        ∃ te, bodyGet wTaskDB.bodies e2.target = some te ∧ taskBlocked 20 te = false) →
      (∃ te, bodyGet wTaskDB.bodies e.target = some te ∧ te.completedAt.isSome = false ∧
        optAfter te.lockedTill 20 = false ∧ optAfter te.reExecuteAfter 20 = false ∧
        optBefore te.executeTill 20 = true) →
      e ∉ db2.index)) :=
  ⟨by decide, by decide, c7_acquireTask 20 wTaskDB (by decide) (by decide)⟩

end PaymentNet
